import Mathlib

/-!
Verification of the technical-indicator calculation and streaming-update
engine of a trading dashboard.

The embedding models the indicator calculators of
`src/lib/indicators/calculations.ts`, the indicator processor of
`src/lib/indicators/processor.ts`, the streaming price buffer policy of the
`useFinnhubQuote` hook, and the `remove_indicator` / `modify_indicator`
tool handlers of `src/lib/agents/tradingAgent.ts`.

Numbers: JavaScript `number` values are modelled as exact rationals (`ℚ`)
and unix timestamps as integers (`ℤ`).  All definitions are executable and
follow the source line by line; index loops of the form
`for (let i = s; i < e; i++)` are rendered as maps over `List.range' s (e - s)`,
and loops that walk two arrays by index offset from the end are rendered as
pairwise walks over the dropped tails (they visit exactly the same element
pairs, see the comments at `macdZip` / `histZip`).
-/

namespace TradingCore

/-- One sample of a scalar price series (`{ time, value }` in the source). -/
structure IndicatorDataPoint where
  time : ℤ
  value : ℚ
deriving DecidableEq

abbrev Series := List IndicatorDataPoint

/-- Sum of a list of rationals, as the source's
`reduce((acc, point) => acc + point.value, 0)`. -/
def listSum (l : List ℚ) : ℚ := l.foldl (· + ·) 0

/-- The window `data.slice(i - period + 1, i + 1)` used by the windowed
calculators (natural subtraction agrees with the source for `i ≥ period - 1`). -/
def windowAt (data : Series) (period i : ℕ) : Series :=
  (data.take (i + 1)).drop (i + 1 - period)

/-- Simple Moving Average, from `calculateSMA`.  The source loops
`for (let i = period - 1; i < data.length; i++)` pushing
`{ time: data[i].time, value: (sum of window) / period }`. -/
def calculateSMA (data : Series) (period : ℕ) : Series :=
  if data.length < period then []
  else
    (List.range' (period - 1) (data.length - (period - 1))).map (fun i =>
      ⟨(data.getD i ⟨0, 0⟩).time,
       listSum ((windowAt data period i).map IndicatorDataPoint.value) / period⟩)

/-- The EMA update loop of `calculateEMA`: starting from the running value
`prev`, each point pushes `ema = (v - ema) * multiplier + ema`. -/
def emaLoop (mult : ℚ) : ℚ → Series → Series
  | _, [] => []
  | prev, p :: rest =>
    let e := (p.value - prev) * mult + prev
    ⟨p.time, e⟩ :: emaLoop mult e rest

/-- Exponential Moving Average, from `calculateEMA`: seed with the SMA of the
first `period` values, emitted at `data[period - 1].time`, then run the
recurrence over the remaining points.  (For `period = 0` on nonempty data the
source dereferences `data[-1]` and throws; that branch is unreachable here
and is modelled as the empty series — every theorem below assumes
`0 < period`.) -/
def calculateEMA (data : Series) (period : ℕ) : Series :=
  if data.length < period then []
  else
    match data.get? (period - 1) with
    | none => []
    | some seedPt =>
      let seed := listSum ((data.take period).map IndicatorDataPoint.value) / period
      ⟨seedPt.time, seed⟩ :: emaLoop (2 / (period + 1)) seed (data.drop period)

/-- Consecutive differences of a list of values, as computed by the loops
`change = data[i].value - data[i - 1].value`. -/
def diffsOf : List ℚ → List ℚ
  | a :: b :: rest => (b - a) :: diffsOf (b :: rest)
  | _ => []

/-- Gain classification of a change (`change >= 0 ? change : 0`). -/
def gainOf (c : ℚ) : ℚ := if 0 ≤ c then c else 0

/-- Loss classification of a change (`change < 0 ? -change : 0`). -/
def lossOf (c : ℚ) : ℚ := if c < 0 then -c else 0

/-- The RSI formula of the source:
`rs = avgLoss === 0 ? 100 : avgGain / avgLoss; rsi = 100 - 100 / (1 + rs)`. -/
def rsiValue (avgGain avgLoss : ℚ) : ℚ :=
  let rs := if avgLoss = 0 then 100 else avgGain / avgLoss
  100 - 100 / (1 + rs)

/-- The Wilder-smoothing loop of `calculateRSI` over the points after the
seed, carrying the previous price and the running average gain and loss. -/
def rsiLoop (period : ℕ) : ℚ → ℚ → ℚ → Series → Series
  | _, _, _, [] => []
  | prevVal, avgGain, avgLoss, p :: rest =>
    let change := p.value - prevVal
    let ag := (avgGain * ((period : ℚ) - 1) + gainOf change) / period
    let al := (avgLoss * ((period : ℚ) - 1) + lossOf change) / period
    ⟨p.time, rsiValue ag al⟩ :: rsiLoop period p.value ag al rest

/-- Relative Strength Index, from `calculateRSI`.  The seed loop
`for (let i = 1; i <= period; i++)` accumulates the gains and losses of the
first `period` consecutive changes; the first output point is emitted at
`data[period].time`, then the smoothed loop runs over the remaining points. -/
def calculateRSI (data : Series) (period : ℕ) : Series :=
  if data.length < period + 1 then []
  else
    match data.get? period with
    | none => []
    | some seedPt =>
      let seedChanges := (diffsOf (data.map IndicatorDataPoint.value)).take period
      let avgGain := listSum (seedChanges.map gainOf) / period
      let avgLoss := listSum (seedChanges.map lossOf) / period
      ⟨seedPt.time, rsiValue avgGain avgLoss⟩ ::
        rsiLoop period seedPt.value avgGain avgLoss (data.drop (period + 1))

/-- Result record of `calculateBollingerBands`. -/
structure BollingerBandsResult where
  upper : Series
  middle : Series
  lower : Series
deriving DecidableEq

/-- Bollinger Bands, from `calculateBollingerBands`.  `Math.sqrt` has no exact
rational counterpart, so the square-root function is passed in as a parameter
`sqrtFn`; every theorem below quantifies over it (only the empty guard is the
subject of a claim). -/
def calculateBollingerBands (sqrtFn : ℚ → ℚ) (data : Series) (period : ℕ)
    (stdDev : ℚ) : BollingerBandsResult :=
  if data.length < period then ⟨[], [], []⟩
  else
    let rows := (List.range' (period - 1) (data.length - (period - 1))).map (fun i =>
      let slice := windowAt data period i
      let mean := listSum (slice.map IndicatorDataPoint.value) / period
      let variance :=
        listSum (slice.map (fun p => (p.value - mean) ^ 2)) / period
      let sd := sqrtFn variance
      ((⟨(data.getD i ⟨0, 0⟩).time, mean + stdDev * sd⟩ : IndicatorDataPoint),
       (⟨(data.getD i ⟨0, 0⟩).time, mean⟩ : IndicatorDataPoint),
       (⟨(data.getD i ⟨0, 0⟩).time, mean - stdDev * sd⟩ : IndicatorDataPoint)))
    ⟨rows.map (fun r => r.1), rows.map (fun r => r.2.1), rows.map (fun r => r.2.2)⟩

/-- Result record of `calculateMACD`. -/
structure MACDResult where
  macd : Series
  signal : Series
  histogram : Series
deriving DecidableEq

/-- The MACD-line loop: the source iterates `i` over `[0, minLength)` reading
`fastEMA[fastEMA.length - minLength + i]` and `slowEMA[slowEMA.length - minLength + i]`
and pushes the difference when the two timestamps agree.  Those index reads
are exactly a pairwise walk of `fastEMA.drop (fastEMA.length - minLength)`
against `slowEMA.drop (slowEMA.length - minLength)`, which is how
`calculateMACD` below invokes this function. -/
def macdZip : Series → Series → Series
  | a :: as, b :: bs =>
    (if a.time = b.time then [⟨a.time, a.value - b.value⟩] else []) ++ macdZip as bs
  | _, _ => []

/-- The histogram loop: the source iterates `i` over the signal line reading
`macdLine[macdLine.length - signalLine.length + i]`, i.e. it walks the signal
line pairwise against `macdLine.drop (macdLine.length - signalLine.length)`. -/
def histZip : Series → Series → Series
  | s :: ss, m :: ms => ⟨s.time, m.value - s.value⟩ :: histZip ss ms
  | _, _ => []

/-- MACD, from `calculateMACD`. -/
def calculateMACD (data : Series) (fastPeriod slowPeriod signalPeriod : ℕ) :
    MACDResult :=
  if data.length < slowPeriod + signalPeriod then ⟨[], [], []⟩
  else
    let fastEMA := calculateEMA data fastPeriod
    let slowEMA := calculateEMA data slowPeriod
    let minLength := min fastEMA.length slowEMA.length
    let macdLine := macdZip (fastEMA.drop (fastEMA.length - minLength))
      (slowEMA.drop (slowEMA.length - minLength))
    let signalLine := calculateEMA macdLine signalPeriod
    let histogram := histZip signalLine
      (macdLine.drop (macdLine.length - signalLine.length))
    ⟨macdLine, signalLine, histogram⟩

/-- The VWAP loop, carrying the cumulative price and the number of points
consumed so far (`vwap = cumulativePrice / (i + 1)`). -/
def vwapLoop : ℚ → ℕ → Series → Series
  | _, _, [] => []
  | cum, i, p :: rest =>
    let c := cum + p.value
    ⟨p.time, c / (i + 1)⟩ :: vwapLoop c (i + 1) rest

/-- Volume Weighted Average Price (simplified unweighted running mean), from
`calculateVWAP`. -/
def calculateVWAP (data : Series) : Series :=
  if data.length = 0 then [] else vwapLoop 0 0 data

/-- Average True Range, from `calculateATR`: true ranges are the absolute
consecutive differences; the output at loop index `i` is the SMA of the
trailing `period` ranges, stamped with `data[i + 1].time`. -/
def calculateATR (data : Series) (period : ℕ) : Series :=
  if data.length < period + 1 then []
  else
    let ranges := (diffsOf (data.map IndicatorDataPoint.value)).map (fun c => |c|)
    (List.range' (period - 1) (ranges.length - (period - 1))).map (fun i =>
      ⟨(data.getD (i + 1) ⟨0, 0⟩).time,
       listSum ((ranges.take (i + 1)).drop (i + 1 - period)) / period⟩)

/-- Result record of `calculateStochastic`. -/
structure StochasticResult where
  k : Series
  d : Series
deriving DecidableEq

/-- `Math.max(...values)` over a nonempty window (the empty case never occurs
under the source's guards; it is given the junk value `0` here, where the
source would produce `-Infinity`). -/
def maxVals : List ℚ → ℚ
  | [] => 0
  | x :: xs => xs.foldl max x

/-- `Math.min(...values)` over a nonempty window (junk value `0` on the
unreachable empty case). -/
def minVals : List ℚ → ℚ
  | [] => 0
  | x :: xs => xs.foldl min x

/-- The body of the %K loop of `calculateStochastic` at loop index `i`. -/
def stochasticPoint (data : Series) (kPeriod i : ℕ) : IndicatorDataPoint :=
  let vals := (windowAt data kPeriod i).map IndicatorDataPoint.value
  let high := maxVals vals
  let low := minVals vals
  let close := (data.getD i ⟨0, 0⟩).value
  let k := if low = high then 50 else (close - low) / (high - low) * 100
  ⟨(data.getD i ⟨0, 0⟩).time, k⟩

/-- The %K loop of `calculateStochastic`. -/
def stochasticK (data : Series) (kPeriod : ℕ) : Series :=
  (List.range' (kPeriod - 1) (data.length - (kPeriod - 1))).map
    (stochasticPoint data kPeriod)

/-- Stochastic Oscillator, from `calculateStochastic`: %K over trailing
`kPeriod` windows, %D as SMA of %K over `dPeriod`. -/
def calculateStochastic (data : Series) (kPeriod dPeriod : ℕ) : StochasticResult :=
  if data.length < kPeriod then ⟨[], []⟩
  else
    let kSeries := stochasticK data kPeriod
    ⟨kSeries, calculateSMA kSeries dPeriod⟩

/-- One point of the live streaming buffer (`StreamingPoint` in the hook). -/
structure StreamingPoint where
  time : ℤ
  value : ℚ
deriving DecidableEq

/-- The retention filter of the streaming buffer:
`next.filter((point) => point.time >= cutoff)` with
`cutoff = Math.floor(Date.now() / 1000) - 60 * 60`.  `nowSec` is the
wall-clock unix time (in seconds) at the moment of the append. -/
def trimOld (nowSec : ℤ) (l : List StreamingPoint) : List StreamingPoint :=
  l.filter (fun q => nowSec - 3600 ≤ q.time)

/-- The `setHistory` append policy of the `useFinnhubQuote` hook: skip if the
new timestamp is not strictly newer than the last stored point, skip if the
price moved by less than one cent from the last stored value, otherwise
append and trim to the one-hour retention window. -/
def appendPoint (nowSec : ℤ) (prev : List StreamingPoint) (p : StreamingPoint) :
    List StreamingPoint :=
  match prev.getLast? with
  | some lastPoint =>
    if p.time ≤ lastPoint.time then prev
    else if |p.value - lastPoint.value| < 1 / 100 then prev
    else trimOld nowSec (prev ++ [p])
  | none => trimOld nowSec (prev ++ [p])

/-- A whole session of appends: each step carries the wall-clock second at
which it is delivered together with the candidate point, folded over an
initially empty buffer. -/
def runAppends (steps : List (ℤ × StreamingPoint)) : List StreamingPoint :=
  steps.foldl (fun buf step => appendPoint step.1 buf step.2) []

/-- The closed enumeration of indicator kinds (`IndicatorType`). -/
inductive IndicatorType where
  | sma | ema | rsi | bollinger | macd | vwap | atr | stochastic
deriving DecidableEq

/-- The string form of an `IndicatorType`, as stored in the `type` field of a
configuration in the source. -/
def indicatorTypeName : IndicatorType → String
  | .sma => "sma"
  | .ema => "ema"
  | .rsi => "rsi"
  | .bollinger => "bollinger"
  | .macd => "macd"
  | .vwap => "vwap"
  | .atr => "atr"
  | .stochastic => "stochastic"

/-- The optional numeric knobs of `IndicatorParams` (period-like knobs are
integers in every tool call; `stdDev` may be fractional). -/
structure IndicatorParams where
  period : Option ℕ
  fastPeriod : Option ℕ
  slowPeriod : Option ℕ
  signalPeriod : Option ℕ
  stdDev : Option ℚ
  kPeriod : Option ℕ
  dPeriod : Option ℕ
deriving DecidableEq

/-- An active indicator instance (`IndicatorConfig`). -/
structure IndicatorConfig where
  id : String
  type : IndicatorType
  name : String
  params : IndicatorParams
  color : Option String
  visible : Bool
deriving DecidableEq

/-- A default configuration value, used only as the junk default of `getD`. -/
def defaultConfig : IndicatorConfig :=
  ⟨"", .sma, "", ⟨none, none, none, none, none, none, none⟩, none, false⟩

/-- JavaScript `params.period || d`: `undefined` and `0` both fall back to the
default (`0` is falsy). -/
def orDefaultNat (o : Option ℕ) (d : ℕ) : ℕ :=
  match o with
  | some v => if v = 0 then d else v
  | none => d

/-- JavaScript `params.stdDev || d` over rationals. -/
def orDefaultRat (o : Option ℚ) (d : ℚ) : ℚ :=
  match o with
  | some v => if v = 0 then d else v
  | none => d

/-- JavaScript `indicator.color || d`: `undefined` and the empty string are
falsy. -/
def colorOr (c : Option String) (d : String) : String :=
  match c with
  | some s => if s.isEmpty then d else s
  | none => d

/-- One rendered output series of the processor (`IndicatorSeries`; the
optional `priceLineVisible` field is never set by the processor and is
omitted). -/
structure IndicatorSeries where
  id : String
  name : String
  data : Series
  color : String
  lineWidth : ℕ
deriving DecidableEq

/-- The body of the `switch (indicator.type)` statement of
`processIndicators`: the list of series pushed for one visible indicator
configuration.  `sqrtFn` is threaded through to the Bollinger calculator. -/
def runCalculator (sqrtFn : ℚ → ℚ) (ind : IndicatorConfig) (priceData : Series) :
    List IndicatorSeries :=
  match ind.type with
  | .sma =>
    let period := orDefaultNat ind.params.period 20
    [⟨ind.id, ind.name ++ " (" ++ toString period ++ ")",
      calculateSMA priceData period, colorOr ind.color "#2196F3", 2⟩]
  | .ema =>
    let period := orDefaultNat ind.params.period 12
    [⟨ind.id, ind.name ++ " (" ++ toString period ++ ")",
      calculateEMA priceData period, colorOr ind.color "#FF9800", 2⟩]
  | .rsi =>
    let period := orDefaultNat ind.params.period 14
    [⟨ind.id, ind.name ++ " (" ++ toString period ++ ")",
      calculateRSI priceData period, colorOr ind.color "#9C27B0", 2⟩]
  | .bollinger =>
    let period := orDefaultNat ind.params.period 20
    let stdDev := orDefaultRat ind.params.stdDev 2
    let bands := calculateBollingerBands sqrtFn priceData period stdDev
    let baseColor := colorOr ind.color "#4CAF50"
    [⟨ind.id ++ "_upper", ind.name ++ " Upper", bands.upper, baseColor, 1⟩,
     ⟨ind.id ++ "_middle", ind.name ++ " Middle", bands.middle, baseColor, 2⟩,
     ⟨ind.id ++ "_lower", ind.name ++ " Lower", bands.lower, baseColor, 1⟩]
  | .macd =>
    let fastPeriod := orDefaultNat ind.params.fastPeriod 12
    let slowPeriod := orDefaultNat ind.params.slowPeriod 26
    let signalPeriod := orDefaultNat ind.params.signalPeriod 9
    let macdData := calculateMACD priceData fastPeriod slowPeriod signalPeriod
    [⟨ind.id ++ "_macd", ind.name ++ " Line", macdData.macd,
      colorOr ind.color "#F44336", 2⟩,
     ⟨ind.id ++ "_signal", ind.name ++ " Signal", macdData.signal, "#2196F3", 2⟩]
  | .vwap =>
    [⟨ind.id, ind.name, calculateVWAP priceData, colorOr ind.color "#00BCD4", 2⟩]
  | .atr =>
    let period := orDefaultNat ind.params.period 14
    [⟨ind.id, ind.name ++ " (" ++ toString period ++ ")",
      calculateATR priceData period, colorOr ind.color "#FF5722", 2⟩]
  | .stochastic =>
    let kPeriod := orDefaultNat ind.params.kPeriod 14
    let dPeriod := orDefaultNat ind.params.dPeriod 3
    let stochData := calculateStochastic priceData kPeriod dPeriod
    [⟨ind.id ++ "_k", ind.name ++ " %K", stochData.k,
      colorOr ind.color "#673AB7", 2⟩,
     ⟨ind.id ++ "_d", ind.name ++ " %D", stochData.d, "#E91E63", 2⟩]

/-- The processor loop of `processIndicators`, generic in the per-indicator
calculator.  The source wraps each switch body in `try { ... } catch`:
a calculator that throws is modelled as `f` returning `Except.error`, in
which case its output is dropped (the source logs and continues); a normal
calculator returns `Except.ok` with the series it pushes.  Invisible
instances are skipped before the calculator is even invoked. -/
def processIndicatorsWith
    (f : IndicatorConfig → Series → Except String (List IndicatorSeries))
    (priceData : Series) (indicators : List IndicatorConfig) :
    List IndicatorSeries :=
  indicators.foldl (fun acc ind =>
    if ind.visible then
      match f ind priceData with
      | Except.ok out => acc ++ out
      | Except.error _ => acc
    else acc) []

/-- `processIndicators` with the concrete (never-throwing) calculators of the
source. -/
def processIndicators (sqrtFn : ℚ → ℚ) (priceData : Series)
    (indicators : List IndicatorConfig) : List IndicatorSeries :=
  processIndicatorsWith (fun ind d => Except.ok (runCalculator sqrtFn ind d))
    priceData indicators

/-- Character-list version of `a.startsWith b`, used to build substring
containment. -/
def charsBeginWith : List Char → List Char → Bool
  | _, [] => true
  | [], _ :: _ => false
  | a :: s, b :: t => a == b && charsBeginWith s t

/-- JavaScript `s.includes(pat)`: `pat` occurs contiguously in `s`. -/
def charsContain : List Char → List Char → Bool
  | [], pat => pat.isEmpty
  | a :: s, pat => charsBeginWith (a :: s) pat || charsContain s pat

/-- `s.toLowerCase()` as a character list. -/
def lowerChars (s : String) : List Char := s.toList.map Char.toLower

/-- The fuzzy match of the `remove_indicator` / `modify_indicator` handlers:
`ind.name.toLowerCase().includes(q) || ind.type.toLowerCase().includes(q)`
where `q` is the lower-cased query. -/
def matchesQuery (query : String) (ind : IndicatorConfig) : Bool :=
  charsContain (lowerChars ind.name) (lowerChars query) ||
    charsContain (lowerChars (indicatorTypeName ind.type)) (lowerChars query)

/-- Outcome of a tool handler: the returned message and, when the handler
calls `setIndicators`, the list it passes to it (`none` means the setter was
never invoked, so the session's instance list is untouched). -/
structure ToolResult where
  message : String
  updated : Option (List IndicatorConfig)
deriving DecidableEq

/-- The `remove_indicator` case of `executeTool`: filter out every instance
whose name or type contains the query (case-insensitively); if nothing was
filtered out, report "not found" without invoking the setter. -/
def removeIndicator (query : String) (indicators : List IndicatorConfig) :
    ToolResult :=
  let filtered := indicators.filter (fun ind => !(matchesQuery query ind))
  if filtered.length = indicators.length then
    ⟨"No indicator found matching \"" ++ query ++ "\"", none⟩
  else
    ⟨"Removed " ++ toString (indicators.length - filtered.length) ++
      " indicator(s) matching \"" ++ query ++ "\"", some filtered⟩

/-- The per-instance update of the `modify_indicator` case: a matching
instance gets `params := { ...ind.params, period: new_period }`; all other
instances are returned as they are. -/
def modifyMatch (query : String) (newPeriod : ℕ) (ind : IndicatorConfig) :
    IndicatorConfig :=
  if matchesQuery query ind then
    { ind with params := { ind.params with period := some newPeriod } }
  else ind

/-- The `modify_indicator` case of `executeTool`.  The source sets a
`modified` flag inside the `map` callback; the flag ends up `true` exactly
when some instance matches, i.e. `indicators.any (matchesQuery query)`. -/
def modifyIndicator (query : String) (newPeriod : ℕ)
    (indicators : List IndicatorConfig) : ToolResult :=
  let updated := indicators.map (modifyMatch query newPeriod)
  if indicators.any (fun ind => matchesQuery query ind) then
    ⟨"Modified " ++ query ++ " to use period " ++ toString newPeriod, some updated⟩
  else
    ⟨"No indicator found matching \"" ++ query ++ "\"", none⟩

/-! ### Claim C5: insufficient data yields empty results, never an error -/

/-- C5: for every price series of length `n < period`, the calculators
`calculateSMA`, `calculateEMA`, `calculateRSI`, `calculateATR`,
`calculateBollingerBands` and `calculateStochastic` (with that period /
kPeriod) return an empty series, or a group whose every member series is
empty.  All calculators are total functions, so no error is possible. -/
theorem insufficient_data_empty (data : Series) (period dPeriod : ℕ)
    (sqrtFn : ℚ → ℚ) (stdDev : ℚ) (h : data.length < period) :
    calculateSMA data period = [] ∧
    calculateEMA data period = [] ∧
    calculateRSI data period = [] ∧
    calculateATR data period = [] ∧
    calculateBollingerBands sqrtFn data period stdDev =
      (⟨[], [], []⟩ : BollingerBandsResult) ∧
    calculateStochastic data period dPeriod = (⟨[], []⟩ : StochasticResult) := by
  have h1 : data.length < period + 1 := Nat.lt_succ_of_lt h
  refine ⟨?_, ?_, ?_, ?_, ?_, ?_⟩
  · simp [calculateSMA, h]
  · simp [calculateEMA, h]
  · simp [calculateRSI, h1]
  · simp [calculateATR, h1]
  · simp [calculateBollingerBands, h]
  · simp [calculateStochastic, h]

/-- Witness for C5 at the one-point series and `period = 2`. -/
theorem insufficient_data_empty_witness :
    ([⟨0, 1⟩] : Series).length < 2 ∧
    (calculateSMA [⟨0, 1⟩] 2 = [] ∧
     calculateEMA [⟨0, 1⟩] 2 = [] ∧
     calculateRSI [⟨0, 1⟩] 2 = [] ∧
     calculateATR [⟨0, 1⟩] 2 = [] ∧
     calculateBollingerBands id [⟨0, 1⟩] 2 2 =
       (⟨[], [], []⟩ : BollingerBandsResult) ∧
     calculateStochastic [⟨0, 1⟩] 2 3 = (⟨[], []⟩ : StochasticResult)) :=
  ⟨by decide, insufficient_data_empty [⟨0, 1⟩] 2 3 id 2 (by decide)⟩

/-! ### Claim C2: out-of-order and insignificant ticks are rejected -/

/-- C2: with at least one stored point, appending a point whose time is not
strictly greater than the last stored point's time, or whose value differs
from the last stored value by less than `0.01`, returns the stored sequence
unchanged (in particular the buffer length is unchanged). -/
theorem appendPoint_reject (nowSec : ℤ) (prev : List StreamingPoint)
    (p lastPoint : StreamingPoint) (hlast : prev.getLast? = some lastPoint)
    (hrej : p.time ≤ lastPoint.time ∨ |p.value - lastPoint.value| < 1 / 100) :
    appendPoint nowSec prev p = prev := by
  have hm : appendPoint nowSec prev p =
      (if p.time ≤ lastPoint.time then prev
       else if |p.value - lastPoint.value| < 1 / 100 then prev
       else trimOld nowSec (prev ++ [p])) := by
    unfold appendPoint
    rw [hlast]
  rcases hrej with h | h
  · rw [hm, if_pos h]
  · rw [hm]
    by_cases ht : p.time ≤ lastPoint.time
    · rw [if_pos ht]
    · rw [if_neg ht, if_pos h]

/-- Witness for C2: a stale-timestamp tick and a sub-cent tick are both
no-ops on a one-point buffer. -/
theorem appendPoint_reject_witness :
    ([⟨50, 1⟩] : List StreamingPoint).getLast? = some ⟨50, 1⟩ ∧
    ((50 : ℤ) ≤ 50 ∨ |(5 : ℚ) - 1| < 1 / 100) ∧
    appendPoint 100 [⟨50, 1⟩] ⟨50, 5⟩ = [⟨50, 1⟩] ∧
    ((60 : ℤ) ≤ 50 ∨ |(1 : ℚ) - 1| < 1 / 100) ∧
    appendPoint 100 [⟨50, 1⟩] ⟨60, 1⟩ = [⟨50, 1⟩] :=
  ⟨by decide, Or.inl (by decide),
   appendPoint_reject 100 [⟨50, 1⟩] ⟨50, 5⟩ ⟨50, 1⟩ (by decide)
     (Or.inl (by decide)),
   Or.inr (by norm_num),
   appendPoint_reject 100 [⟨50, 1⟩] ⟨60, 1⟩ ⟨50, 1⟩ (by decide)
     (Or.inr (by norm_num))⟩

/-! ### Claim C9: removing by a non-matching name is a reported no-op -/

/-- C9: when the removal query matches (case-insensitively, as a substring)
neither the name nor the type of any active instance, `remove_indicator`
returns the descriptive "not found" message and never invokes the setter
(`updated = none`), leaving the instance list unchanged; the handler is a
total function, so it cannot throw. -/
theorem removeIndicator_not_found (query : String)
    (indicators : List IndicatorConfig)
    (h : ∀ ind ∈ indicators, matchesQuery query ind = false) :
    removeIndicator query indicators =
      ⟨"No indicator found matching \"" ++ query ++ "\"", none⟩ := by
  unfold removeIndicator
  have hf : indicators.filter (fun ind => !(matchesQuery query ind)) =
      indicators := by
    apply List.filter_eq_self.mpr
    intro a ha
    simp [h a ha]
  simp [hf]

/-- Witness for C9 at a one-instance list and the query "vwap". -/
theorem removeIndicator_not_found_witness :
    (∀ ind ∈ [(⟨"rsi_1", .rsi, "RSI", ⟨some 14, none, none, none, none, none,
        none⟩, none, true⟩ : IndicatorConfig)],
      matchesQuery "vwap" ind = false) ∧
    removeIndicator "vwap"
        [⟨"rsi_1", .rsi, "RSI", ⟨some 14, none, none, none, none, none, none⟩,
          none, true⟩] =
      ⟨"No indicator found matching \"" ++ "vwap" ++ "\"", none⟩ :=
  ⟨by decide,
   removeIndicator_not_found "vwap"
     [⟨"rsi_1", .rsi, "RSI", ⟨some 14, none, none, none, none, none, none⟩,
       none, true⟩] (by decide)⟩

/-! ### Claim C10: modify_indicator updates exactly params.period of matches -/

/-- Reading a mapped list below its length commutes with the map, whatever
junk defaults are supplied. -/
theorem getD_map_of_lt {α β : Type} (f : α → β) :
    ∀ (l : List α) (j : ℕ), j < l.length → ∀ (d : α) (d' : β),
      (l.map f).getD j d' = f (l.getD j d)
  | [], j, hj, _, _ => absurd hj (by simp)
  | a :: t, 0, _, d, d' => rfl
  | a :: t, j + 1, hj, d, d' =>
    getD_map_of_lt f t j (Nat.lt_of_succ_lt_succ hj) d d'

/-- C10: when the modify query matches at least one instance, the setter
receives the mapped list; every matched instance (of any kind, including
those whose calculators never read `period`) has exactly its `params.period`
set to the new period, while its identity, type, name, color, visibility and
all other parameter keys are unchanged, and every unmatched instance is
returned untouched. -/
theorem modifyIndicator_frame (query : String) (newPeriod : ℕ)
    (indicators : List IndicatorConfig)
    (h : ∃ ind ∈ indicators, matchesQuery query ind = true) :
    (modifyIndicator query newPeriod indicators).updated =
      some (indicators.map (modifyMatch query newPeriod)) ∧
    (indicators.map (modifyMatch query newPeriod)).length = indicators.length ∧
    ∀ j, j < indicators.length →
      ((matchesQuery query (indicators.getD j defaultConfig) = false →
        (indicators.map (modifyMatch query newPeriod)).getD j defaultConfig =
          indicators.getD j defaultConfig) ∧
      (matchesQuery query (indicators.getD j defaultConfig) = true →
        (((indicators.map (modifyMatch query newPeriod)).getD j
            defaultConfig).id = (indicators.getD j defaultConfig).id ∧
         ((indicators.map (modifyMatch query newPeriod)).getD j
            defaultConfig).type = (indicators.getD j defaultConfig).type ∧
         ((indicators.map (modifyMatch query newPeriod)).getD j
            defaultConfig).name = (indicators.getD j defaultConfig).name ∧
         ((indicators.map (modifyMatch query newPeriod)).getD j
            defaultConfig).color = (indicators.getD j defaultConfig).color ∧
         ((indicators.map (modifyMatch query newPeriod)).getD j
            defaultConfig).visible = (indicators.getD j defaultConfig).visible) ∧
        (((indicators.map (modifyMatch query newPeriod)).getD j
            defaultConfig).params.period = some newPeriod ∧
         ((indicators.map (modifyMatch query newPeriod)).getD j
            defaultConfig).params.fastPeriod =
           (indicators.getD j defaultConfig).params.fastPeriod ∧
         ((indicators.map (modifyMatch query newPeriod)).getD j
            defaultConfig).params.slowPeriod =
           (indicators.getD j defaultConfig).params.slowPeriod ∧
         ((indicators.map (modifyMatch query newPeriod)).getD j
            defaultConfig).params.signalPeriod =
           (indicators.getD j defaultConfig).params.signalPeriod ∧
         ((indicators.map (modifyMatch query newPeriod)).getD j
            defaultConfig).params.stdDev =
           (indicators.getD j defaultConfig).params.stdDev ∧
         ((indicators.map (modifyMatch query newPeriod)).getD j
            defaultConfig).params.kPeriod =
           (indicators.getD j defaultConfig).params.kPeriod ∧
         ((indicators.map (modifyMatch query newPeriod)).getD j
            defaultConfig).params.dPeriod =
           (indicators.getD j defaultConfig).params.dPeriod))) := by
  have hany : indicators.any (fun ind => matchesQuery query ind) = true := by
    rcases h with ⟨ind, hmem, hq⟩
    exact List.any_eq_true.mpr ⟨ind, hmem, hq⟩
  refine ⟨?_, by simp, ?_⟩
  · unfold modifyIndicator
    simp [hany]
  · intro j hj
    have hmap := getD_map_of_lt (modifyMatch query newPeriod) indicators j hj
      defaultConfig defaultConfig
    constructor
    · intro hq
      rw [hmap]
      unfold modifyMatch
      rw [hq]
      simp
    · intro hq
      rw [hmap]
      unfold modifyMatch
      rw [hq]
      simp

/-- Witness for C10: a two-instance list where the query "rsi" matches the
first instance only. -/
theorem modifyIndicator_frame_witness :
    (∃ ind ∈ [(⟨"rsi_1", .rsi, "RSI",
        ⟨some 14, none, none, none, none, none, none⟩, some "#9C27B0", true⟩ :
          IndicatorConfig),
        ⟨"macd_1", .macd, "MACD",
          ⟨none, some 12, some 26, some 9, none, none, none⟩, none, true⟩],
      matchesQuery "rsi" ind = true) ∧
    ((modifyIndicator "rsi" 7
        [⟨"rsi_1", .rsi, "RSI", ⟨some 14, none, none, none, none, none, none⟩,
          some "#9C27B0", true⟩,
         ⟨"macd_1", .macd, "MACD",
          ⟨none, some 12, some 26, some 9, none, none, none⟩,
          none, true⟩]).updated =
      some ([⟨"rsi_1", .rsi, "RSI",
        ⟨some 14, none, none, none, none, none, none⟩, some "#9C27B0", true⟩,
        ⟨"macd_1", .macd, "MACD",
          ⟨none, some 12, some 26, some 9, none, none, none⟩,
          none, true⟩].map (modifyMatch "rsi" 7))) :=
  ⟨⟨⟨"rsi_1", .rsi, "RSI", ⟨some 14, none, none, none, none, none, none⟩,
      some "#9C27B0", true⟩, by simp, by decide⟩,
   (modifyIndicator_frame "rsi" 7
     [⟨"rsi_1", .rsi, "RSI", ⟨some 14, none, none, none, none, none, none⟩,
       some "#9C27B0", true⟩,
      ⟨"macd_1", .macd, "MACD",
        ⟨none, some 12, some 26, some 9, none, none, none⟩, none, true⟩]
     ⟨⟨"rsi_1", .rsi, "RSI", ⟨some 14, none, none, none, none, none, none⟩,
         some "#9C27B0", true⟩, by simp, by decide⟩).1⟩

/-! ### Claim C4: per-indicator fault isolation in the processor -/

/-- The processor fold over an arbitrary starting accumulator prepends the
accumulator to the result of the fold over the empty accumulator. -/
theorem processWith_foldl_acc
    (f : IndicatorConfig → Series → Except String (List IndicatorSeries))
    (priceData : Series) :
    ∀ (indicators : List IndicatorConfig) (acc : List IndicatorSeries),
      indicators.foldl (fun acc ind =>
        if ind.visible then
          match f ind priceData with
          | Except.ok out => acc ++ out
          | Except.error _ => acc
        else acc) acc = acc ++ processIndicatorsWith f priceData indicators
  | [], acc => by simp [processIndicatorsWith]
  | ind :: rest, acc => by
    unfold processIndicatorsWith
    rw [List.foldl_cons, List.foldl_cons,
      processWith_foldl_acc f priceData rest,
      processWith_foldl_acc f priceData rest]
    by_cases hv : ind.visible
    · rw [if_pos hv, if_pos hv]
      cases hout : f ind priceData with
      | ok out => simp
      | error err => simp
    · rw [if_neg hv, if_neg hv]
      simp

/-- The processor output over a concatenation is the concatenation of the
outputs. -/
theorem processWith_append
    (f : IndicatorConfig → Series → Except String (List IndicatorSeries))
    (priceData : Series) (l₁ l₂ : List IndicatorConfig) :
    processIndicatorsWith f priceData (l₁ ++ l₂) =
      processIndicatorsWith f priceData l₁ ++
        processIndicatorsWith f priceData l₂ := by
  unfold processIndicatorsWith
  rw [List.foldl_append]
  exact processWith_foldl_acc f priceData l₂ _

/-- C4: if the calculator of one instance throws (modelled as `f` returning
`Except.error` for it), the processor omits that instance's output and still
produces the outputs of every instance before and after it, in order; the
processor is a total function, so the fault never propagates to the caller. -/
theorem processIndicators_fault_isolation
    (f : IndicatorConfig → Series → Except String (List IndicatorSeries))
    (priceData : Series) (pre post : List IndicatorConfig)
    (c : IndicatorConfig) (e : String)
    (herr : f c priceData = Except.error e) :
    processIndicatorsWith f priceData (pre ++ c :: post) =
      processIndicatorsWith f priceData pre ++
        processIndicatorsWith f priceData post := by
  rw [processWith_append]
  have hc : processIndicatorsWith f priceData (c :: post) =
      processIndicatorsWith f priceData post := by
    unfold processIndicatorsWith
    rw [List.foldl_cons]
    by_cases hv : c.visible
    · rw [if_pos hv, herr]
    · rw [if_neg hv]
  rw [hc]

/-- A concrete calculator family for the C4 witness: the instance with id
"bad" throws, every other instance produces one labelled output series. -/
def faultyCalc (ind : IndicatorConfig) (priceData : Series) :
    Except String (List IndicatorSeries) :=
  if ind.id = "bad" then Except.error "boom"
  else Except.ok [⟨ind.id, ind.name, priceData, "#2196F3", 2⟩]

/-- Witness for C4: with a throwing middle instance, the processor returns
exactly the outputs of the two healthy neighbours. -/
theorem processIndicators_fault_isolation_witness :
    faultyCalc ⟨"bad", .ema, "EMA",
        ⟨some 12, none, none, none, none, none, none⟩, none, true⟩ [⟨0, 1⟩] =
      Except.error "boom" ∧
    processIndicatorsWith faultyCalc [⟨0, 1⟩]
        [⟨"sma_1", .sma, "SMA", ⟨some 20, none, none, none, none, none, none⟩,
          none, true⟩,
         ⟨"bad", .ema, "EMA", ⟨some 12, none, none, none, none, none, none⟩,
          none, true⟩,
         ⟨"vwap_1", .vwap, "VWAP", ⟨none, none, none, none, none, none, none⟩,
          none, true⟩] =
      processIndicatorsWith faultyCalc [⟨0, 1⟩]
        [⟨"sma_1", .sma, "SMA", ⟨some 20, none, none, none, none, none, none⟩,
          none, true⟩] ++
      processIndicatorsWith faultyCalc [⟨0, 1⟩]
        [⟨"vwap_1", .vwap, "VWAP", ⟨none, none, none, none, none, none, none⟩,
          none, true⟩] :=
  ⟨by rfl,
   processIndicators_fault_isolation faultyCalc [⟨0, 1⟩]
     [⟨"sma_1", .sma, "SMA", ⟨some 20, none, none, none, none, none, none⟩,
       none, true⟩]
     [⟨"vwap_1", .vwap, "VWAP", ⟨none, none, none, none, none, none, none⟩,
       none, true⟩]
     ⟨"bad", .ema, "EMA", ⟨some 12, none, none, none, none, none, none⟩,
       none, true⟩
     "boom" (by rfl)⟩

/-! ### Claim C3: retention window of the streaming buffer

The source trims with `cutoff = Math.floor(Date.now() / 1000) - 3600`, i.e.
relative to the wall clock of the append, not relative to the newest stored
point's time.  A point whose feed timestamp runs ahead of the wall clock can
therefore leave older points more than 3600 seconds behind the newest stored
point, refuting the claim as stated; the invariant does hold as soon as feed
timestamps never exceed the wall clock and the wall clock is monotone. -/

/-- C3 counterexample: two accepted appends at wall-clock second 10000 — the
second point carries the future timestamp 20000 — leave the point at time
6400 in the buffer even though it is older than `latestTime - 3600 = 16400`. -/
theorem runAppends_retention_counterexample :
    runAppends [(10000, ⟨6400, 1⟩), (10000, ⟨20000, 2⟩)] =
      [⟨6400, 1⟩, ⟨20000, 2⟩] ∧
    (runAppends [(10000, ⟨6400, 1⟩)]).length = 1 ∧
    (runAppends [(10000, ⟨6400, 1⟩), (10000, ⟨20000, 2⟩)]).length = 2 ∧
    (⟨6400, 1⟩ : StreamingPoint) ∈
      runAppends [(10000, ⟨6400, 1⟩), (10000, ⟨20000, 2⟩)] ∧
    (runAppends [(10000, ⟨6400, 1⟩), (10000, ⟨20000, 2⟩)]).getLast? =
      some ⟨20000, 2⟩ ∧
    (6400 : ℤ) < 20000 - 3600 := by
  have h : runAppends [(10000, ⟨6400, 1⟩), (10000, ⟨20000, 2⟩)] =
      [⟨6400, 1⟩, ⟨20000, 2⟩] := by
    norm_num [runAppends, appendPoint, trimOld, List.getLast?, List.filter]
  have h1 : runAppends [(10000, ⟨6400, 1⟩)] = [⟨6400, 1⟩] := by
    norm_num [runAppends, appendPoint, trimOld, List.getLast?, List.filter]
  refine ⟨h, ?_, ?_, ?_, ?_, by norm_num⟩
  · rw [h1]; rfl
  · rw [h]; rfl
  · rw [h]; simp
  · rw [h]; rfl

/-- The trimmed buffer is pairwise within the retention window provided every
surviving point is at most the wall clock. -/
theorem trimOld_inv (nowSec : ℤ) (l : List StreamingPoint)
    (hub : ∀ q ∈ l, q.time ≤ nowSec) :
    (∀ q ∈ trimOld nowSec l, q.time ≤ nowSec) ∧
    (∀ q ∈ trimOld nowSec l, ∀ r ∈ trimOld nowSec l,
      r.time - 3600 ≤ q.time) := by
  constructor
  · intro q hq
    exact hub q (List.mem_of_mem_filter hq)
  · intro q hq r hr
    have h1 : nowSec - 3600 ≤ q.time := by
      have := List.of_mem_filter hq
      simpa using this
    have h2 : r.time ≤ nowSec := hub r (List.mem_of_mem_filter hr)
    omega

/-- One append at wall-clock `n'` preserves the buffer invariant: all stored
times are at most the current wall clock, and all stored times are pairwise
within 3600 seconds of each other. -/
theorem appendPoint_inv (n n' : ℤ) (buf : List StreamingPoint)
    (p : StreamingPoint) (hn : n ≤ n') (hp : p.time ≤ n')
    (hub : ∀ q ∈ buf, q.time ≤ n)
    (hpw : ∀ q ∈ buf, ∀ r ∈ buf, r.time - 3600 ≤ q.time) :
    (∀ q ∈ appendPoint n' buf p, q.time ≤ n') ∧
    (∀ q ∈ appendPoint n' buf p, ∀ r ∈ appendPoint n' buf p,
      r.time - 3600 ≤ q.time) := by
  have hub' : ∀ q ∈ buf ++ [p], q.time ≤ n' := by
    intro q hq
    rcases List.mem_append.mp hq with h | h
    · exact le_trans (hub q h) hn
    · rw [List.mem_singleton.mp h]
      exact hp
  have haccept := trimOld_inv n' (buf ++ [p]) hub'
  have hkeep : (∀ q ∈ buf, q.time ≤ n') ∧
      (∀ q ∈ buf, ∀ r ∈ buf, r.time - 3600 ≤ q.time) :=
    ⟨fun q hq => le_trans (hub q hq) hn, hpw⟩
  cases hl : buf.getLast? with
  | none =>
    have he : appendPoint n' buf p = trimOld n' (buf ++ [p]) := by
      unfold appendPoint
      rw [hl]
    rw [he]
    exact haccept
  | some lastPoint =>
    have he : appendPoint n' buf p =
        (if p.time ≤ lastPoint.time then buf
         else if |p.value - lastPoint.value| < 1 / 100 then buf
         else trimOld n' (buf ++ [p])) := by
      unfold appendPoint
      rw [hl]
    rw [he]
    by_cases ht : p.time ≤ lastPoint.time
    · rw [if_pos ht]
      exact hkeep
    · rw [if_neg ht]
      by_cases hv : |p.value - lastPoint.value| < 1 / 100
      · rw [if_pos hv]
        exact hkeep
      · rw [if_neg hv]
        exact haccept

/-- Folding a monotone-clock, no-future-timestamp step list over an invariant
buffer keeps the buffer pairwise within the retention window. -/
theorem foldAppends_inv :
    ∀ (steps : List (ℤ × StreamingPoint)) (buf : List StreamingPoint) (n : ℤ),
      (∀ q ∈ buf, q.time ≤ n) →
      (∀ q ∈ buf, ∀ r ∈ buf, r.time - 3600 ≤ q.time) →
      List.Chain' (· ≤ ·) (n :: steps.map Prod.fst) →
      (∀ s ∈ steps, s.2.time ≤ s.1) →
      ∀ q ∈ steps.foldl (fun b s => appendPoint s.1 b s.2) buf,
        ∀ r ∈ steps.foldl (fun b s => appendPoint s.1 b s.2) buf,
          r.time - 3600 ≤ q.time
  | [], buf, n, _, hpw, _, _ => by simpa using hpw
  | s :: rest, buf, n, hub, hpw, hchain, hreal => by
    rw [List.map_cons] at hchain
    have hns : n ≤ s.1 ∧ List.Chain' (· ≤ ·) (s.1 :: rest.map Prod.fst) :=
      List.chain'_cons.mp hchain
    have hstep := appendPoint_inv n s.1 buf s.2 hns.1
      (hreal s (List.mem_cons_self s rest)) hub hpw
    rw [List.foldl_cons]
    exact foldAppends_inv rest (appendPoint s.1 buf s.2) s.1 hstep.1 hstep.2
      hns.2 (fun t ht => hreal t (List.mem_cons_of_mem s ht))

/-- C3 amended: provided each appended point's feed timestamp is at most the
wall-clock second of its append and the wall clock never decreases across
appends, then after any sequence of appends every two stored points are
within 3600 seconds of each other — in particular no stored point has
`time < latestTime - 3600`.  (Each accepted append filters the buffer with
`cutoff = now - 3600`, the wall-clock retention window of the source.) -/
theorem runAppends_retention (steps : List (ℤ × StreamingPoint))
    (hmono : List.Chain' (· ≤ ·) (steps.map Prod.fst))
    (hreal : ∀ s ∈ steps, s.2.time ≤ s.1) :
    ∀ q ∈ runAppends steps, ∀ r ∈ runAppends steps,
      r.time - 3600 ≤ q.time := by
  cases steps with
  | nil =>
    intro q hq
    simp [runAppends] at hq
  | cons s rest =>
    unfold runAppends
    refine foldAppends_inv (s :: rest) [] s.1 ?_ ?_ ?_ hreal
    · intro q hq
      simp at hq
    · intro q hq
      simp at hq
    · rw [List.map_cons] at hmono ⊢
      exact List.chain'_cons.mpr ⟨le_refl _, hmono⟩

/-- Witness for the amended C3 at a concrete realistic session: three ticks
whose timestamps trail the wall clock. -/
theorem runAppends_retention_witness :
    List.Chain' (· ≤ ·)
      (([(10000, ⟨9000, 1⟩), (10050, ⟨10040, 2⟩), (10100, ⟨10090, 3⟩)] :
        List (ℤ × StreamingPoint)).map Prod.fst) ∧
    (∀ s ∈ ([(10000, ⟨9000, 1⟩), (10050, ⟨10040, 2⟩), (10100, ⟨10090, 3⟩)] :
        List (ℤ × StreamingPoint)), s.2.time ≤ s.1) ∧
    ∀ q ∈ runAppends [(10000, ⟨9000, 1⟩), (10050, ⟨10040, 2⟩),
        (10100, ⟨10090, 3⟩)],
      ∀ r ∈ runAppends [(10000, ⟨9000, 1⟩), (10050, ⟨10040, 2⟩),
          (10100, ⟨10090, 3⟩)],
        r.time - 3600 ≤ q.time :=
  ⟨by simp, by decide,
   runAppends_retention
     [(10000, ⟨9000, 1⟩), (10050, ⟨10040, 2⟩), (10100, ⟨10090, 3⟩)]
     (by simp) (by decide)⟩

/-! ### Claim C1: RSI on a strictly increasing series

With no losses the source takes the `avgLoss === 0` branch, which sets
`rs = 100` (a saturation cap, not a limit) and then still applies
`rsi = 100 - 100 / (1 + rs)`, producing `100 - 100 / 101 = 10000 / 101`
(about 99.0099) — not `100` — at the seed point and at every later point. -/

/-- C1 counterexample: the strictly increasing four-point series
`1, 2, 3, 4` with `period = 2` (length `period + 2`) yields the RSI value
`10000 / 101 ≈ 99.0099` at both output points, so the point after the seed is
not `100` and the zero-loss branch does not produce `100`. -/
theorem calculateRSI_all_gains_counterexample :
    List.Chain' (fun a b : IndicatorDataPoint => a.value < b.value)
      [⟨0, 1⟩, ⟨1, 2⟩, ⟨2, 3⟩, ⟨3, 4⟩] ∧
    ([⟨0, 1⟩, ⟨1, 2⟩, ⟨2, 3⟩, ⟨3, 4⟩] : Series).length = 2 + 2 ∧
    (calculateRSI [⟨0, 1⟩, ⟨1, 2⟩, ⟨2, 3⟩, ⟨3, 4⟩] 2).map
      IndicatorDataPoint.value = [10000 / 101, 10000 / 101] ∧
    ¬((10000 / 101 : ℚ) = 100) := by
  refine ⟨by norm_num [List.chain'_cons], rfl, ?_, by norm_num⟩
  norm_num [calculateRSI, rsiLoop, rsiValue, diffsOf, gainOf, lossOf, listSum]

/-- Strictly increasing values have positive consecutive differences. -/
theorem diffsOf_pos : ∀ (l : List ℚ), List.Chain' (· < ·) l →
    ∀ c ∈ diffsOf l, 0 < c
  | [], _, c, hc => by simp [diffsOf] at hc
  | [_], _, c, hc => by simp [diffsOf] at hc
  | a :: b :: rest, h, c, hc => by
    have hstep : diffsOf (a :: b :: rest) = (b - a) :: diffsOf (b :: rest) := rfl
    rw [hstep] at hc
    have hab := List.chain'_cons.mp h
    rcases List.mem_cons.mp hc with h1 | h1
    · rw [h1]
      linarith [hab.1]
    · exact diffsOf_pos (b :: rest) hab.2 c h1

/-- Folding addition over a list of zeroes returns the accumulator. -/
theorem foldl_add_all_zero : ∀ (l : List ℚ) (a : ℚ), (∀ c ∈ l, c = 0) →
    l.foldl (· + ·) a = a
  | [], _, _ => rfl
  | c :: t, a, h => by
    rw [List.foldl_cons, h c (List.mem_cons_self c t), add_zero]
    exact foldl_add_all_zero t a (fun x hx => h x (List.mem_cons_of_mem c hx))

/-- The sum of a list of zeroes is zero. -/
theorem listSum_eq_zero (l : List ℚ) (h : ∀ c ∈ l, c = 0) : listSum l = 0 :=
  foldl_add_all_zero l 0 h

/-- A nonnegative change is classified as no loss. -/
theorem lossOf_eq_zero {c : ℚ} (h : 0 ≤ c) : lossOf c = 0 := by
  unfold lossOf
  rw [if_neg (not_lt.mpr h)]

/-- With zero average loss the source's RSI formula returns
`100 - 100 / (1 + 100) = 10000 / 101`. -/
theorem rsiValue_zero_loss (avgGain : ℚ) : rsiValue avgGain 0 = 10000 / 101 := by
  unfold rsiValue
  norm_num

/-- Step equation of the smoothed RSI loop. -/
theorem rsiLoop_cons (period : ℕ) (prevVal avgGain avgLoss : ℚ)
    (q : IndicatorDataPoint) (rest : Series) :
    rsiLoop period prevVal avgGain avgLoss (q :: rest) =
      ⟨q.time, rsiValue
          ((avgGain * ((period : ℚ) - 1) + gainOf (q.value - prevVal)) / period)
          ((avgLoss * ((period : ℚ) - 1) + lossOf (q.value - prevVal)) / period)⟩ ::
        rsiLoop period q.value
          ((avgGain * ((period : ℚ) - 1) + gainOf (q.value - prevVal)) / period)
          ((avgLoss * ((period : ℚ) - 1) + lossOf (q.value - prevVal)) / period)
          rest := rfl

/-- On a strictly rising tail the smoothed loop keeps `avgLoss = 0` and emits
the constant value `10000 / 101`. -/
theorem rsiLoop_all_gains (period : ℕ) :
    ∀ (rest : Series) (prevVal avgGain : ℚ),
      List.Chain (· < ·) prevVal (rest.map IndicatorDataPoint.value) →
      ∀ p ∈ rsiLoop period prevVal avgGain 0 rest, p.value = 10000 / 101
  | [], _, _, _, p, hp => by simp [rsiLoop] at hp
  | q :: rest, prevVal, avgGain, hchain, p, hp => by
    rw [List.map_cons] at hchain
    have hc := List.chain_cons.mp hchain
    have hge : (0 : ℚ) ≤ q.value - prevVal := by linarith [hc.1]
    have hal : ((0 : ℚ) * ((period : ℚ) - 1) + lossOf (q.value - prevVal)) /
        period = 0 := by
      rw [lossOf_eq_zero hge]
      simp
    rw [rsiLoop_cons, hal] at hp
    rcases List.mem_cons.mp hp with h1 | h1
    · rw [h1]
      exact rsiValue_zero_loss _
    · exact rsiLoop_all_gains period rest q.value _ hc.2 p h1

/-- C1 amended: for every strictly increasing price series of length at least
`period + 2` (with `0 < period`), every output point of `calculateRSI` —
the seed point included — has the value `10000 / 101 = 100 - 100 / (1 + 100)`
(≈ 99.0099), the saturated value of the zero-loss branch, not `100`. -/
theorem calculateRSI_all_gains (data : Series) (period : ℕ) (_hp : 0 < period)
    (hlen : period + 2 ≤ data.length)
    (hmono : List.Chain' (fun a b : IndicatorDataPoint => a.value < b.value)
      data) :
    ∀ p ∈ calculateRSI data period, p.value = 10000 / 101 := by
  have hguard : ¬(data.length < period + 1) := by omega
  have hplen : period < data.length := by omega
  have hseed : data.get? period = some (data.get ⟨period, hplen⟩) :=
    List.get?_eq_get hplen
  have hdiffpos : ∀ c ∈ diffsOf (data.map IndicatorDataPoint.value), 0 < c :=
    diffsOf_pos (data.map IndicatorDataPoint.value)
      ((List.chain'_map IndicatorDataPoint.value).mpr hmono)
  have hzero : listSum
      (((diffsOf (data.map IndicatorDataPoint.value)).take period).map lossOf) /
        period = 0 := by
    rw [listSum_eq_zero]
    · simp
    · intro c hc
      rcases List.mem_map.mp hc with ⟨x, hx, hcx⟩
      rw [← hcx]
      exact lossOf_eq_zero
        (le_of_lt (hdiffpos x (List.mem_of_mem_take hx)))
  have he : calculateRSI data period =
      ⟨(data.get ⟨period, hplen⟩).time,
        rsiValue
          (listSum (((diffsOf (data.map IndicatorDataPoint.value)).take
            period).map gainOf) / period)
          (listSum (((diffsOf (data.map IndicatorDataPoint.value)).take
            period).map lossOf) / period)⟩ ::
        rsiLoop period (data.get ⟨period, hplen⟩).value
          (listSum (((diffsOf (data.map IndicatorDataPoint.value)).take
            period).map gainOf) / period)
          (listSum (((diffsOf (data.map IndicatorDataPoint.value)).take
            period).map lossOf) / period)
          (data.drop (period + 1)) := by
    unfold calculateRSI
    rw [if_neg hguard, hseed]
  have hchain : List.Chain (fun a b : IndicatorDataPoint => a.value < b.value)
      (data.get ⟨period, hplen⟩) (data.drop (period + 1)) := by
    have hdrop : List.Chain' (fun a b : IndicatorDataPoint =>
        a.value < b.value) (data.drop period) :=
      hmono.drop period
    rw [List.drop_eq_getElem_cons hplen] at hdrop
    exact hdrop
  intro p hpmem
  rw [he, hzero] at hpmem
  rcases List.mem_cons.mp hpmem with h1 | h1
  · rw [h1]
    exact rsiValue_zero_loss _
  · exact rsiLoop_all_gains period (data.drop (period + 1))
      (data.get ⟨period, hplen⟩).value _
      ((List.chain_map IndicatorDataPoint.value).mpr hchain) p h1

/-- Witness for the amended C1 at the series `1, 2, 3, 4` with `period = 2`. -/
theorem calculateRSI_all_gains_witness :
    0 < 2 ∧
    2 + 2 ≤ ([⟨0, 1⟩, ⟨1, 2⟩, ⟨2, 3⟩, ⟨3, 4⟩] : Series).length ∧
    List.Chain' (fun a b : IndicatorDataPoint => a.value < b.value)
      [⟨0, 1⟩, ⟨1, 2⟩, ⟨2, 3⟩, ⟨3, 4⟩] ∧
    ∀ p ∈ calculateRSI [⟨0, 1⟩, ⟨1, 2⟩, ⟨2, 3⟩, ⟨3, 4⟩] 2,
      p.value = 10000 / 101 :=
  ⟨by norm_num, by norm_num, by norm_num [List.chain'_cons],
   calculateRSI_all_gains [⟨0, 1⟩, ⟨1, 2⟩, ⟨2, 3⟩, ⟨3, 4⟩] 2 (by norm_num)
     (by norm_num) (by norm_num [List.chain'_cons])⟩

/-! ### Claim C7: EMA seed equivalence and recurrence -/

/-- Step equation of the EMA loop. -/
theorem emaLoop_cons (mult prev : ℚ) (q : IndicatorDataPoint) (rest : Series) :
    emaLoop mult prev (q :: rest) =
      ⟨q.time, (q.value - prev) * mult + prev⟩ ::
        emaLoop mult ((q.value - prev) * mult + prev) rest := rfl

/-- The EMA loop emits one point per consumed point. -/
theorem emaLoop_length (mult : ℚ) : ∀ (l : Series) (prev : ℚ),
    (emaLoop mult prev l).length = l.length
  | [], _ => rfl
  | q :: rest, prev => by
    rw [emaLoop_cons, List.length_cons, List.length_cons,
      emaLoop_length mult rest]

/-- Reading a dropped list is reading the original at the shifted index. -/
theorem getD_drop (l : Series) (k j : ℕ) :
    (l.drop k).getD j ⟨0, 0⟩ = l.getD (k + j) ⟨0, 0⟩ := by
  simp [List.getD_eq_getElem?_getD, List.getElem?_drop]

/-- Each EMA-loop output after the first follows the source recurrence
`ema = (v - ema_prev) * mult + ema_prev`, stamped with the input time. -/
theorem emaLoop_rec (mult : ℚ) :
    ∀ (l : Series) (prev : ℚ) (i : ℕ), i + 1 < l.length →
      (emaLoop mult prev l).getD (i + 1) ⟨0, 0⟩ =
        ⟨(l.getD (i + 1) ⟨0, 0⟩).time,
         ((l.getD (i + 1) ⟨0, 0⟩).value -
            ((emaLoop mult prev l).getD i ⟨0, 0⟩).value) * mult +
           ((emaLoop mult prev l).getD i ⟨0, 0⟩).value⟩
  | [], _, i, hi => by simp at hi
  | q :: rest, prev, 0, hi => by
    cases rest with
    | nil => simp at hi
    | cons r rest => rfl
  | q :: rest, prev, i + 1, hi => by
    rw [emaLoop_cons, List.getD_cons_succ, List.getD_cons_succ,
      List.getD_cons_succ]
    exact emaLoop_rec mult rest ((q.value - prev) * mult + prev) i
      (by simpa using hi)

/-- C7: for every price series of length at least `period` (with
`0 < period`), the first point of `calculateEMA` carries the arithmetic mean
of the first `period` input values — the SMA seed — stamped with the time of
the input point at index `period - 1`; every later point `i + 1` follows the
recurrence `ema = (v - ema_prev) * k + ema_prev` with `k = 2 / (period + 1)`
applied to the input value at index `period + i`, stamped with that input
point's time. -/
theorem calculateEMA_seed_and_recurrence (data : Series) (period : ℕ)
    (hp : 0 < period) (hlen : period ≤ data.length) :
    (calculateEMA data period).head? =
      some ⟨(data.getD (period - 1) ⟨0, 0⟩).time,
            listSum ((data.take period).map IndicatorDataPoint.value) /
              period⟩ ∧
    ∀ i, i + 1 < (calculateEMA data period).length →
      (calculateEMA data period).getD (i + 1) ⟨0, 0⟩ =
        ⟨(data.getD (period + i) ⟨0, 0⟩).time,
         ((data.getD (period + i) ⟨0, 0⟩).value -
            ((calculateEMA data period).getD i ⟨0, 0⟩).value) *
             (2 / ((period : ℚ) + 1)) +
           ((calculateEMA data period).getD i ⟨0, 0⟩).value⟩ := by
  have hlt : period - 1 < data.length := by omega
  have hguard : ¬(data.length < period) := not_lt.mpr hlen
  have hseedPt : data.get? (period - 1) = some (data.get ⟨period - 1, hlt⟩) :=
    List.get?_eq_get hlt
  have he : calculateEMA data period =
      ⟨(data.get ⟨period - 1, hlt⟩).time,
        listSum ((data.take period).map IndicatorDataPoint.value) / period⟩ ::
      emaLoop (2 / ((period : ℚ) + 1))
        (listSum ((data.take period).map IndicatorDataPoint.value) / period)
        (data.drop period) := by
    unfold calculateEMA
    rw [if_neg hguard, hseedPt]
  have hgetD : data.getD (period - 1) ⟨0, 0⟩ = data.get ⟨period - 1, hlt⟩ := by
    rw [List.getD_eq_getElem?_getD, List.getElem?_eq_getElem hlt]
    rfl
  constructor
  · rw [he, List.head?_cons, hgetD]
  · intro i hi
    rw [he] at hi ⊢
    rw [List.length_cons, emaLoop_length] at hi
    cases i with
    | zero =>
      cases hdrop : data.drop period with
      | nil =>
        rw [hdrop] at hi
        simp at hi
      | cons r rest =>
        have hr : data.getD (period + 0) ⟨0, 0⟩ = r := by
          rw [← getD_drop data period 0, hdrop]
          rfl
        rw [hr, List.getD_cons_succ, emaLoop_cons, List.getD_cons_zero,
          List.getD_cons_zero]
    | succ j =>
      have hji : j + 1 < (data.drop period).length := by omega
      rw [List.getD_cons_succ, List.getD_cons_succ,
        emaLoop_rec _ (data.drop period) _ j hji, getD_drop]

/-- Witness for C7 at the series `1, 2, 3, 4` with `period = 2` (seed
`3/2` at time 1, then `5/2` and `7/2`). -/
theorem calculateEMA_seed_and_recurrence_witness :
    0 < 2 ∧ 2 ≤ ([⟨0, 1⟩, ⟨1, 2⟩, ⟨2, 3⟩, ⟨3, 4⟩] : Series).length ∧
    ((calculateEMA [⟨0, 1⟩, ⟨1, 2⟩, ⟨2, 3⟩, ⟨3, 4⟩] 2).head? =
      some ⟨(([⟨0, 1⟩, ⟨1, 2⟩, ⟨2, 3⟩, ⟨3, 4⟩] : Series).getD (2 - 1)
              ⟨0, 0⟩).time,
            listSum ((([⟨0, 1⟩, ⟨1, 2⟩, ⟨2, 3⟩, ⟨3, 4⟩] : Series).take 2).map
              IndicatorDataPoint.value) / 2⟩ ∧
     ∀ i, i + 1 < (calculateEMA [⟨0, 1⟩, ⟨1, 2⟩, ⟨2, 3⟩, ⟨3, 4⟩] 2).length →
      (calculateEMA [⟨0, 1⟩, ⟨1, 2⟩, ⟨2, 3⟩, ⟨3, 4⟩] 2).getD (i + 1) ⟨0, 0⟩ =
        ⟨(([⟨0, 1⟩, ⟨1, 2⟩, ⟨2, 3⟩, ⟨3, 4⟩] : Series).getD (2 + i)
            ⟨0, 0⟩).time,
         ((([⟨0, 1⟩, ⟨1, 2⟩, ⟨2, 3⟩, ⟨3, 4⟩] : Series).getD (2 + i)
             ⟨0, 0⟩).value -
            ((calculateEMA [⟨0, 1⟩, ⟨1, 2⟩, ⟨2, 3⟩, ⟨3, 4⟩] 2).getD i
              ⟨0, 0⟩).value) * (2 / ((2 : ℚ) + 1)) +
           ((calculateEMA [⟨0, 1⟩, ⟨1, 2⟩, ⟨2, 3⟩, ⟨3, 4⟩] 2).getD i
             ⟨0, 0⟩).value⟩) :=
  ⟨by norm_num, by norm_num,
   calculateEMA_seed_and_recurrence [⟨0, 1⟩, ⟨1, 2⟩, ⟨2, 3⟩, ⟨3, 4⟩] 2
     (by norm_num) (by norm_num)⟩

/-! ### Claim C8: stochastic %K bounds and the flat-window neutral value -/

/-- Folding `max` never goes below the starting accumulator's lower bounds. -/
theorem le_foldl_max : ∀ (xs : List ℚ) (a x : ℚ), a ≤ x → a ≤ xs.foldl max x
  | [], _, _, h => h
  | y :: t, a, x, h =>
    le_foldl_max t a (max x y) (le_trans h (le_max_left x y))

/-- Every member of the list is below the `max` fold. -/
theorem mem_le_foldl_max : ∀ (xs : List ℚ) (x y : ℚ), y ∈ xs →
    y ≤ xs.foldl max x
  | [], _, y, h => absurd h (List.not_mem_nil y)
  | z :: t, x, y, h => by
    rcases List.mem_cons.mp h with h1 | h1
    · rw [List.foldl_cons]
      exact le_foldl_max t y (max x z) (h1 ▸ le_max_right x z)
    · rw [List.foldl_cons]
      exact mem_le_foldl_max t (max x z) y h1

/-- Every member of a list is at most its `Math.max`. -/
theorem mem_le_maxVals (l : List ℚ) (y : ℚ) (h : y ∈ l) : y ≤ maxVals l := by
  cases l with
  | nil => exact absurd h (List.not_mem_nil y)
  | cons x xs =>
    show y ≤ xs.foldl max x
    rcases List.mem_cons.mp h with h1 | h1
    · rw [h1]
      exact le_foldl_max xs x x (le_refl x)
    · exact mem_le_foldl_max xs x y h1

/-- Folding `min` never exceeds the starting accumulator's upper bounds. -/
theorem foldl_min_le : ∀ (xs : List ℚ) (a x : ℚ), x ≤ a → xs.foldl min x ≤ a
  | [], _, _, h => h
  | y :: t, a, x, h =>
    foldl_min_le t a (min x y) (le_trans (min_le_left x y) h)

/-- The `min` fold is below every member of the list. -/
theorem foldl_min_le_mem : ∀ (xs : List ℚ) (x y : ℚ), y ∈ xs →
    xs.foldl min x ≤ y
  | [], _, y, h => absurd h (List.not_mem_nil y)
  | z :: t, x, y, h => by
    rcases List.mem_cons.mp h with h1 | h1
    · rw [List.foldl_cons]
      exact foldl_min_le t y (min x z) (h1 ▸ min_le_right x z)
    · rw [List.foldl_cons]
      exact foldl_min_le_mem t (min x z) y h1

/-- Every member of a list is at least its `Math.min`. -/
theorem minVals_le_mem (l : List ℚ) (y : ℚ) (h : y ∈ l) : minVals l ≤ y := by
  cases l with
  | nil => exact absurd h (List.not_mem_nil y)
  | cons x xs =>
    show xs.foldl min x ≤ y
    rcases List.mem_cons.mp h with h1 | h1
    · rw [h1]
      exact foldl_min_le xs x x (le_refl x)
    · exact foldl_min_le_mem xs x y h1

/-- The closing point of each stochastic window belongs to the window. -/
theorem getD_mem_windowAt (data : Series) (kPeriod i : ℕ) (hk : 0 < kPeriod)
    (hik : kPeriod - 1 ≤ i) (hi : i < data.length) :
    data.getD i ⟨0, 0⟩ ∈ windowAt data kPeriod i := by
  have harith : (i + 1 - kPeriod) + (kPeriod - 1) = i := by omega
  have hg : (windowAt data kPeriod i).get? (kPeriod - 1) =
      some (data.get ⟨i, hi⟩) := by
    unfold windowAt
    rw [List.get?_drop, harith, List.get?_take (Nat.lt_succ_self i)]
    exact List.get?_eq_get hi
  have hmem : data.get ⟨i, hi⟩ ∈ windowAt data kPeriod i :=
    List.get?_mem hg
  have hgd : data.getD i ⟨0, 0⟩ = data.get ⟨i, hi⟩ := by
    rw [List.getD_eq_getElem?_getD, List.getElem?_eq_getElem hi]
    rfl
  rw [hgd]
  exact hmem

/-- C8: for every price series of length at least `kPeriod` (with
`0 < kPeriod`), every %K value emitted by `calculateStochastic` lies in
`[0, 100]`, and whenever a window's maximum equals its minimum the emitted
%K value at that window is exactly `50`. -/
theorem calculateStochastic_k_bounds (data : Series) (kPeriod dPeriod : ℕ)
    (hk : 0 < kPeriod) (hlen : kPeriod ≤ data.length) :
    (∀ p ∈ (calculateStochastic data kPeriod dPeriod).k,
      0 ≤ p.value ∧ p.value ≤ 100) ∧
    ∀ j, j < (calculateStochastic data kPeriod dPeriod).k.length →
      maxVals ((windowAt data kPeriod (kPeriod - 1 + j)).map
          IndicatorDataPoint.value) =
        minVals ((windowAt data kPeriod (kPeriod - 1 + j)).map
          IndicatorDataPoint.value) →
      ((calculateStochastic data kPeriod dPeriod).k.getD j ⟨0, 0⟩).value =
        50 := by
  have hguard : ¬(data.length < kPeriod) := not_lt.mpr hlen
  have hks : (calculateStochastic data kPeriod dPeriod).k =
      stochasticK data kPeriod := by
    unfold calculateStochastic
    rw [if_neg hguard]
  have hbound : ∀ i, kPeriod - 1 ≤ i → i < data.length →
      minVals ((windowAt data kPeriod i).map IndicatorDataPoint.value) ≤
        (data.getD i ⟨0, 0⟩).value ∧
      (data.getD i ⟨0, 0⟩).value ≤
        maxVals ((windowAt data kPeriod i).map IndicatorDataPoint.value) := by
    intro i h1 h2
    have hmem : (data.getD i ⟨0, 0⟩).value ∈
        (windowAt data kPeriod i).map IndicatorDataPoint.value :=
      List.mem_map_of_mem IndicatorDataPoint.value
        (getD_mem_windowAt data kPeriod i hk h1 h2)
    exact ⟨minVals_le_mem _ _ hmem, mem_le_maxVals _ _ hmem⟩
  constructor
  · rw [hks]
    intro p hp
    unfold stochasticK at hp
    rcases List.mem_map.mp hp with ⟨i, hi, hpi⟩
    rcases List.mem_range'_1.mp hi with ⟨h1, h2⟩
    have h2' : i < data.length := by omega
    have hb := hbound i h1 h2'
    rw [← hpi]
    unfold stochasticPoint
    by_cases heq : minVals ((windowAt data kPeriod i).map
        IndicatorDataPoint.value) =
      maxVals ((windowAt data kPeriod i).map IndicatorDataPoint.value)
    · simp only [heq, if_pos]
      norm_num
    · simp only [if_neg heq]
      have hlt : minVals ((windowAt data kPeriod i).map
          IndicatorDataPoint.value) <
          maxVals ((windowAt data kPeriod i).map IndicatorDataPoint.value) :=
        lt_of_le_of_ne (le_trans hb.1 hb.2) heq
      constructor
      · apply mul_nonneg
        · apply div_nonneg
          · linarith [hb.1]
          · linarith [hlt]
        · norm_num
      · have hq : ((data.getD i ⟨0, 0⟩).value -
            minVals ((windowAt data kPeriod i).map IndicatorDataPoint.value)) /
            (maxVals ((windowAt data kPeriod i).map IndicatorDataPoint.value) -
              minVals ((windowAt data kPeriod i).map
                IndicatorDataPoint.value)) ≤ 1 :=
          (div_le_one (by linarith [hlt])).mpr (by linarith [hb.2])
        have := mul_le_mul_of_nonneg_right hq (by norm_num : (0 : ℚ) ≤ 100)
        linarith [this]
  · intro j hj heq
    rw [hks] at hj ⊢
    unfold stochasticK at hj ⊢
    rw [List.length_map] at hj
    have hrj : (List.range' (kPeriod - 1)
        (data.length - (kPeriod - 1))).getD j 0 = kPeriod - 1 + j := by
      rw [List.getD_eq_getElem?_getD, List.getElem?_eq_getElem hj,
        List.getElem_range', Option.getD_some, one_mul]
    rw [getD_map_of_lt (stochasticPoint data kPeriod) _ j hj 0 ⟨0, 0⟩, hrj]
    unfold stochasticPoint
    simp only [if_pos heq.symm]

/-- Witness for C8 at the series `5, 5, 7` with `kPeriod = 2`: the first
window is flat (%K = 50) and all %K values are within bounds. -/
theorem calculateStochastic_k_bounds_witness :
    0 < 2 ∧ 2 ≤ ([⟨0, 5⟩, ⟨1, 5⟩, ⟨2, 7⟩] : Series).length ∧
    ((∀ p ∈ (calculateStochastic [⟨0, 5⟩, ⟨1, 5⟩, ⟨2, 7⟩] 2 1).k,
      0 ≤ p.value ∧ p.value ≤ 100) ∧
    ∀ j, j < (calculateStochastic [⟨0, 5⟩, ⟨1, 5⟩, ⟨2, 7⟩] 2 1).k.length →
      maxVals ((windowAt [⟨0, 5⟩, ⟨1, 5⟩, ⟨2, 7⟩] 2 (2 - 1 + j)).map
          IndicatorDataPoint.value) =
        minVals ((windowAt [⟨0, 5⟩, ⟨1, 5⟩, ⟨2, 7⟩] 2 (2 - 1 + j)).map
          IndicatorDataPoint.value) →
      ((calculateStochastic [⟨0, 5⟩, ⟨1, 5⟩, ⟨2, 7⟩] 2 1).k.getD j
        ⟨0, 0⟩).value = 50) :=
  ⟨by norm_num, by norm_num,
   calculateStochastic_k_bounds [⟨0, 5⟩, ⟨1, 5⟩, ⟨2, 7⟩] 2 1 (by norm_num)
     (by norm_num)⟩

/-! ### Claim C6: MACD tail alignment and signal line -/

/-- The EMA loop stamps its outputs with the input times. -/
theorem emaLoop_map_time (mult : ℚ) : ∀ (l : Series) (prev : ℚ),
    (emaLoop mult prev l).map IndicatorDataPoint.time =
      l.map IndicatorDataPoint.time
  | [], _ => rfl
  | q :: rest, prev => by
    rw [emaLoop_cons, List.map_cons, List.map_cons,
      emaLoop_map_time mult rest]

/-- The EMA output times are the input times from index `period - 1` on. -/
theorem calculateEMA_map_time (data : Series) (period : ℕ) (hp : 0 < period)
    (hlen : period ≤ data.length) :
    (calculateEMA data period).map IndicatorDataPoint.time =
      (data.map IndicatorDataPoint.time).drop (period - 1) := by
  have hlt : period - 1 < data.length := by omega
  have hguard : ¬(data.length < period) := not_lt.mpr hlen
  have hseedPt : data.get? (period - 1) = some (data.get ⟨period - 1, hlt⟩) :=
    List.get?_eq_get hlt
  have he : calculateEMA data period =
      ⟨(data.get ⟨period - 1, hlt⟩).time,
        listSum ((data.take period).map IndicatorDataPoint.value) / period⟩ ::
      emaLoop (2 / ((period : ℚ) + 1))
        (listSum ((data.take period).map IndicatorDataPoint.value) / period)
        (data.drop period) := by
    unfold calculateEMA
    rw [if_neg hguard, hseedPt]
  have hmlt : period - 1 < (data.map IndicatorDataPoint.time).length := by
    rw [List.length_map]
    exact hlt
  rw [he, List.map_cons, emaLoop_map_time,
    List.drop_eq_getElem_cons hmlt]
  have h1 : (data.map IndicatorDataPoint.time)[period - 1] =
      (data.get ⟨period - 1, hlt⟩).time := by
    rw [List.getElem_map]
    rfl
  have h2 : period - 1 + 1 = period := by omega
  rw [h1, h2, List.map_drop]

/-- The EMA output length is `n - (period - 1)`. -/
theorem calculateEMA_length (data : Series) (period : ℕ) (hp : 0 < period)
    (hlen : period ≤ data.length) :
    (calculateEMA data period).length = data.length - (period - 1) := by
  have := congrArg List.length (calculateEMA_map_time data period hp hlen)
  rw [List.length_map, List.length_drop, List.length_map] at this
  exact this

/-- A strict time chain yields pairwise strictly increasing times. -/
theorem chain'_time_pairwise (l : Series)
    (h : List.Chain' (fun a b : IndicatorDataPoint => a.time < b.time) l) :
    List.Pairwise (fun a b : IndicatorDataPoint => a.time < b.time) l := by
  have hm : List.Chain' (· < ·) (l.map IndicatorDataPoint.time) :=
    (List.chain'_map IndicatorDataPoint.time).mpr h
  have hp : List.Pairwise (· < ·) (l.map IndicatorDataPoint.time) :=
    List.chain'_iff_pairwise.mp hm
  exact (List.pairwise_map).mp hp

/-- Two members of a strictly time-increasing list with the same time
coincide. -/
theorem pairwise_time_eq : ∀ (l : Series),
    List.Pairwise (fun a b : IndicatorDataPoint => a.time < b.time) l →
    ∀ a ∈ l, ∀ b ∈ l, a.time = b.time → a = b
  | [], _, a, ha, _, _, _ => absurd ha (List.not_mem_nil a)
  | c :: t, hpw, a, ha, b, hb, heq => by
    have hc := List.pairwise_cons.mp hpw
    rcases List.mem_cons.mp ha with h1 | h1 <;>
      rcases List.mem_cons.mp hb with h2 | h2
    · rw [h1, h2]
    · exfalso
      have := hc.1 b h2
      rw [h1] at heq
      omega
    · exfalso
      have := hc.1 a h1
      rw [h2] at heq
      omega
    · exact pairwise_time_eq t hc.2 a h1 b h2 heq

/-- When the two tails agree on times, the source's guarded MACD loop is a
plain pointwise subtraction. -/
theorem macdZip_eq_zipWith : ∀ (xs ys : Series),
    xs.map IndicatorDataPoint.time = ys.map IndicatorDataPoint.time →
    macdZip xs ys =
      List.zipWith (fun a b =>
        (⟨a.time, a.value - b.value⟩ : IndicatorDataPoint)) xs ys
  | [], ys, _ => by
    cases ys <;> rfl
  | x :: xs, [], _ => rfl
  | x :: xs, y :: ys, h => by
    rw [List.map_cons, List.map_cons] at h
    have h1 : x.time = y.time := (List.cons.injEq _ _ _ _).mp h |>.1
    have h2 : xs.map IndicatorDataPoint.time = ys.map IndicatorDataPoint.time :=
      (List.cons.injEq _ _ _ _).mp h |>.2
    show (if x.time = y.time then [⟨x.time, x.value - y.value⟩] else []) ++
        macdZip xs ys = _
    rw [if_pos h1, macdZip_eq_zipWith xs ys h2]
    rfl

/-- Every point of the aligned subtraction comes from one member of each
tail, the two sharing its timestamp. -/
theorem mem_zipWith_macd : ∀ (xs ys : Series),
    xs.map IndicatorDataPoint.time = ys.map IndicatorDataPoint.time →
    ∀ p ∈ List.zipWith (fun a b =>
        (⟨a.time, a.value - b.value⟩ : IndicatorDataPoint)) xs ys,
      ∃ a, a ∈ xs ∧ ∃ b, b ∈ ys ∧ a.time = b.time ∧
        p = ⟨a.time, a.value - b.value⟩
  | [], _, _, p, hp => by simp at hp
  | x :: xs, [], _, p, hp => by simp at hp
  | x :: xs, y :: ys, h, p, hp => by
    rw [List.map_cons, List.map_cons] at h
    have h1 : x.time = y.time := (List.cons.injEq _ _ _ _).mp h |>.1
    have h2 : xs.map IndicatorDataPoint.time = ys.map IndicatorDataPoint.time :=
      (List.cons.injEq _ _ _ _).mp h |>.2
    rw [List.zipWith_cons_cons] at hp
    rcases List.mem_cons.mp hp with hph | hph
    · exact ⟨x, List.mem_cons_self x xs,
        y, List.mem_cons_self y ys, h1, hph⟩
    · rcases mem_zipWith_macd xs ys h2 p hph with ⟨a, haxs, b, hbys, hab, hpe⟩
      exact ⟨a, List.mem_cons_of_mem x haxs,
        b, List.mem_cons_of_mem y hbys, hab, hpe⟩

/-- Alignment core: with time-agreeing tails and strictly increasing times on
both EMA series, the guarded loop equals the pointwise subtraction and each
output point is the difference of the unique fast and slow entries at its
timestamp. -/
theorem macdZip_align (F S : Series)
    (hts : (F.drop (F.length - min F.length S.length)).map
        IndicatorDataPoint.time =
      (S.drop (S.length - min F.length S.length)).map
        IndicatorDataPoint.time)
    (hpwF : List.Pairwise (fun a b : IndicatorDataPoint =>
      a.time < b.time) F)
    (hpwS : List.Pairwise (fun a b : IndicatorDataPoint =>
      a.time < b.time) S) :
    macdZip (F.drop (F.length - min F.length S.length))
        (S.drop (S.length - min F.length S.length)) =
      List.zipWith (fun a b =>
          (⟨a.time, a.value - b.value⟩ : IndicatorDataPoint))
        (F.drop (F.length - min F.length S.length))
        (S.drop (S.length - min F.length S.length)) ∧
    ∀ p ∈ macdZip (F.drop (F.length - min F.length S.length))
        (S.drop (S.length - min F.length S.length)),
      ((∃ a ∈ F, a.time = p.time) ∧ (∃ b ∈ S, b.time = p.time)) ∧
      ∀ a ∈ F, ∀ b ∈ S, a.time = p.time → b.time = p.time →
        p.value = a.value - b.value := by
  have hzip := macdZip_eq_zipWith _ _ hts
  refine ⟨hzip, ?_⟩
  intro p hp
  rw [hzip] at hp
  rcases mem_zipWith_macd _ _ hts p hp with ⟨a0, ha0, b0, hb0, hab, hpe⟩
  have ha0F : a0 ∈ F := List.mem_of_mem_drop ha0
  have hb0S : b0 ∈ S := List.mem_of_mem_drop hb0
  have hpt : p.time = a0.time := by rw [hpe]
  refine ⟨⟨⟨a0, ha0F, hpt.symm⟩, ⟨b0, hb0S, by rw [hpt, hab]⟩⟩, ?_⟩
  intro a ha b hb hta htb
  have haa0 : a = a0 := pairwise_time_eq F hpwF a ha a0 ha0F (by rw [hta, hpt])
  have hbb0 : b = b0 := pairwise_time_eq S hpwS b hb b0 hb0S
    (by rw [htb, hpt, hab])
  rw [haa0, hbb0, hpe]

/-- C6: for a price series with strictly increasing timestamps and length at
least `slowPeriod + signalPeriod` (all periods positive), the MACD line is
exactly the pointwise fast-minus-slow difference over the common aligned tail
of the two EMA series (the last `min` lengths entries), every MACD point's
timestamp occurs in both EMA series with the MACD value equal to the fast
EMA value minus the slow EMA value at that timestamp, and the signal line is
the `signalPeriod` EMA of the aligned MACD line alone. -/
theorem calculateMACD_alignment (data : Series)
    (fastPeriod slowPeriod signalPeriod : ℕ) (hf : 0 < fastPeriod)
    (hs : 0 < slowPeriod) (hsig : 0 < signalPeriod)
    (hlen : slowPeriod + signalPeriod ≤ data.length)
    (htimes : List.Chain' (fun a b : IndicatorDataPoint =>
      a.time < b.time) data) :
    (calculateMACD data fastPeriod slowPeriod signalPeriod).macd =
      List.zipWith (fun a b =>
          (⟨a.time, a.value - b.value⟩ : IndicatorDataPoint))
        ((calculateEMA data fastPeriod).drop
          ((calculateEMA data fastPeriod).length -
            min (calculateEMA data fastPeriod).length
              (calculateEMA data slowPeriod).length))
        ((calculateEMA data slowPeriod).drop
          ((calculateEMA data slowPeriod).length -
            min (calculateEMA data fastPeriod).length
              (calculateEMA data slowPeriod).length)) ∧
    (calculateMACD data fastPeriod slowPeriod signalPeriod).signal =
      calculateEMA (calculateMACD data fastPeriod slowPeriod signalPeriod).macd
        signalPeriod ∧
    (∀ p ∈ (calculateMACD data fastPeriod slowPeriod signalPeriod).macd,
      (∃ a ∈ calculateEMA data fastPeriod, a.time = p.time) ∧
      (∃ b ∈ calculateEMA data slowPeriod, b.time = p.time)) ∧
    ∀ p ∈ (calculateMACD data fastPeriod slowPeriod signalPeriod).macd,
      ∀ a ∈ calculateEMA data fastPeriod, ∀ b ∈ calculateEMA data slowPeriod,
        a.time = p.time → b.time = p.time → p.value = a.value - b.value := by
  have hguard : ¬(data.length < slowPeriod + signalPeriod) := not_lt.mpr hlen
  have hslow : slowPeriod ≤ data.length := by omega
  have hm : (calculateMACD data fastPeriod slowPeriod signalPeriod).macd =
      macdZip ((calculateEMA data fastPeriod).drop
          ((calculateEMA data fastPeriod).length -
            min (calculateEMA data fastPeriod).length
              (calculateEMA data slowPeriod).length))
        ((calculateEMA data slowPeriod).drop
          ((calculateEMA data slowPeriod).length -
            min (calculateEMA data fastPeriod).length
              (calculateEMA data slowPeriod).length)) := by
    unfold calculateMACD
    rw [if_neg hguard]
  have hsg : (calculateMACD data fastPeriod slowPeriod signalPeriod).signal =
      calculateEMA
        (calculateMACD data fastPeriod slowPeriod signalPeriod).macd
        signalPeriod := by
    unfold calculateMACD
    rw [if_neg hguard]
  have hSt := calculateEMA_map_time data slowPeriod hs hslow
  have hlS := calculateEMA_length data slowPeriod hs hslow
  have hpwS : List.Pairwise (fun a b : IndicatorDataPoint =>
      a.time < b.time) (calculateEMA data slowPeriod) := by
    apply (List.pairwise_map).mp
    rw [hSt]
    exact (List.chain'_iff_pairwise.mp
      ((List.chain'_map IndicatorDataPoint.time).mpr htimes)).sublist
      (List.drop_sublist _ _)
  have hpwF : List.Pairwise (fun a b : IndicatorDataPoint =>
      a.time < b.time) (calculateEMA data fastPeriod) := by
    by_cases hfast : fastPeriod ≤ data.length
    · apply (List.pairwise_map).mp
      rw [calculateEMA_map_time data fastPeriod hf hfast]
      exact (List.chain'_iff_pairwise.mp
        ((List.chain'_map IndicatorDataPoint.time).mpr htimes)).sublist
        (List.drop_sublist _ _)
    · have hFe : calculateEMA data fastPeriod = [] := by
        unfold calculateEMA
        rw [if_pos (by omega)]
      rw [hFe]
      exact List.Pairwise.nil
  have hts : ((calculateEMA data fastPeriod).drop
        ((calculateEMA data fastPeriod).length -
          min (calculateEMA data fastPeriod).length
            (calculateEMA data slowPeriod).length)).map
        IndicatorDataPoint.time =
      ((calculateEMA data slowPeriod).drop
        ((calculateEMA data slowPeriod).length -
          min (calculateEMA data fastPeriod).length
            (calculateEMA data slowPeriod).length)).map
        IndicatorDataPoint.time := by
    by_cases hfast : fastPeriod ≤ data.length
    · have hFt := calculateEMA_map_time data fastPeriod hf hfast
      have hlF := calculateEMA_length data fastPeriod hf hfast
      rw [List.map_drop, List.map_drop, hFt, hSt,
        List.drop_drop, List.drop_drop]
      congr 1
      omega
    · have hFe : calculateEMA data fastPeriod = [] := by
        unfold calculateEMA
        rw [if_pos (by omega)]
      rw [hFe]
      simp
  obtain ⟨hzip, hmem⟩ := macdZip_align (calculateEMA data fastPeriod)
    (calculateEMA data slowPeriod) hts hpwF hpwS
  refine ⟨by rw [hm]; exact hzip, hsg, ?_, ?_⟩
  · intro p hp
    rw [hm] at hp
    exact (hmem p hp).1
  · intro p hp
    rw [hm] at hp
    exact (hmem p hp).2

/-- Witness for C6 at the series `1, 2, 4` (times `0, 1, 2`) with
`fastPeriod = 1`, `slowPeriod = 2`, `signalPeriod = 1`. -/
theorem calculateMACD_alignment_witness :
    (0 < 1 ∧ 0 < 2 ∧ 2 + 1 ≤ ([⟨0, 1⟩, ⟨1, 2⟩, ⟨2, 4⟩] : Series).length ∧
     List.Chain' (fun a b : IndicatorDataPoint => a.time < b.time)
       [⟨0, 1⟩, ⟨1, 2⟩, ⟨2, 4⟩]) ∧
    ((calculateMACD [⟨0, 1⟩, ⟨1, 2⟩, ⟨2, 4⟩] 1 2 1).macd =
      List.zipWith (fun a b =>
          (⟨a.time, a.value - b.value⟩ : IndicatorDataPoint))
        ((calculateEMA [⟨0, 1⟩, ⟨1, 2⟩, ⟨2, 4⟩] 1).drop
          ((calculateEMA [⟨0, 1⟩, ⟨1, 2⟩, ⟨2, 4⟩] 1).length -
            min (calculateEMA [⟨0, 1⟩, ⟨1, 2⟩, ⟨2, 4⟩] 1).length
              (calculateEMA [⟨0, 1⟩, ⟨1, 2⟩, ⟨2, 4⟩] 2).length))
        ((calculateEMA [⟨0, 1⟩, ⟨1, 2⟩, ⟨2, 4⟩] 2).drop
          ((calculateEMA [⟨0, 1⟩, ⟨1, 2⟩, ⟨2, 4⟩] 2).length -
            min (calculateEMA [⟨0, 1⟩, ⟨1, 2⟩, ⟨2, 4⟩] 1).length
              (calculateEMA [⟨0, 1⟩, ⟨1, 2⟩, ⟨2, 4⟩] 2).length)) ∧
     (calculateMACD [⟨0, 1⟩, ⟨1, 2⟩, ⟨2, 4⟩] 1 2 1).signal =
      calculateEMA (calculateMACD [⟨0, 1⟩, ⟨1, 2⟩, ⟨2, 4⟩] 1 2 1).macd 1 ∧
     (∀ p ∈ (calculateMACD [⟨0, 1⟩, ⟨1, 2⟩, ⟨2, 4⟩] 1 2 1).macd,
       (∃ a ∈ calculateEMA [⟨0, 1⟩, ⟨1, 2⟩, ⟨2, 4⟩] 1, a.time = p.time) ∧
       (∃ b ∈ calculateEMA [⟨0, 1⟩, ⟨1, 2⟩, ⟨2, 4⟩] 2, b.time = p.time)) ∧
     ∀ p ∈ (calculateMACD [⟨0, 1⟩, ⟨1, 2⟩, ⟨2, 4⟩] 1 2 1).macd,
       ∀ a ∈ calculateEMA [⟨0, 1⟩, ⟨1, 2⟩, ⟨2, 4⟩] 1,
         ∀ b ∈ calculateEMA [⟨0, 1⟩, ⟨1, 2⟩, ⟨2, 4⟩] 2,
           a.time = p.time → b.time = p.time →
             p.value = a.value - b.value) :=
  ⟨⟨by norm_num, by norm_num, by norm_num, by norm_num [List.chain'_cons]⟩,
   calculateMACD_alignment [⟨0, 1⟩, ⟨1, 2⟩, ⟨2, 4⟩] 1 2 1 (by norm_num)
     (by norm_num) (by norm_num) (by norm_num)
     (by norm_num [List.chain'_cons])⟩

end TradingCore
